import Mathlib

/-!
Verification development for the `file-organizer` disk-operations core
(`organizer/disk_operations.py`): the snapshotter `create_json_from_dir`,
the differ `compare_structures` and the synchronizer `apply_changes`,
shallowly embedded over an explicit filesystem state.  POSIX is assumed
(`os.sep = "/"`), and no symbolic links are present, so `os.path.realpath`
is lexical normalisation of an absolute path.
-/

namespace FileOrganizer

/- ## String helpers (structural, on the character list) -/

/-- Code-point comparison of characters, as Python compares strings. -/
def charLt (a b : Char) : Bool := Nat.blt a.toNat b.toNat

/-- Lexicographic comparison of character lists. -/
def charsLt : List Char → List Char → Bool
  | [], [] => false
  | [], _ :: _ => true
  | _ :: _, [] => false
  | a :: as, b :: bs => if a = b then charsLt as bs else charLt a b

/-- Python string `<` (lexicographic on code points). -/
def strLt (a b : String) : Bool := charsLt a.data b.data

/-- Split a character list on a separator character (Python `str.split(sep)`). -/
def splitCharsOn (sep : Char) : List Char → List (List Char)
  | [] => [[]]
  | c :: cs =>
    let rest := splitCharsOn sep cs
    if c = sep then [] :: rest
    else match rest with
      | [] => [[c]]
      | r :: rs => (c :: r) :: rs

/-- Split a path string on `/`. -/
def splitSlash (s : String) : List String :=
  (splitCharsOn '/' s.data).map String.mk

/-- Join segments with `/` (Python `"/".join`). -/
def joinSlash : List String → String
  | [] => ""
  | [s] => s
  | s :: rest => s ++ "/" ++ joinSlash rest

/-- Python `str.startswith`. -/
def strStartsWith (s pre : String) : Bool := List.isPrefixOf pre.data s.data

/-- Python `str.endswith`. -/
def strEndsWith (s suf : String) : Bool := List.isSuffixOf suf.data s.data

/-- Python `str.strip("/")`: drop `/` characters from both ends. -/
def pyStripSlash (s : String) : String :=
  String.mk (((s.data.dropWhile (· = '/')).reverse.dropWhile (· = '/')).reverse)

/-- `os.path.basename`: the part after the last `/`. -/
def basenameStr (p : String) : String := (splitSlash p).getLastD ""

/-- `os.path.dirname`: the part before the last `/`; a leading slash is kept. -/
def pyDirname (p : String) : String :=
  let parts := splitSlash p
  if parts.length ≤ 1 then ""
  else
    let head := joinSlash parts.dropLast
    if head = "" then "/" else head

/-- Separator count used as the depth key in phase 4
(`p.count("/") + p.count("\\")`). -/
def countSep (p : String) : Nat := p.data.count '/' + p.data.count '\\'

/-- `os.path.join(a, b)` for the cases arising here: an absolute second
argument replaces the first, else the two are joined with one separator. -/
def pyJoin (a b : String) : String :=
  if strStartsWith b "/" then b
  else if strEndsWith a "/" then a ++ b
  else a ++ "/" ++ b

/- ## Canonical paths (`os.path.realpath`, symlink-free) -/

/-- Normalise segments of an absolute path: empty and `.` segments vanish,
`..` pops (and is dropped at the root, as the kernel resolves `/..` to `/`). -/
def normSegs (acc : List String) : List String → List String
  | [] => acc
  | s :: rest =>
    if s = "" ∨ s = "." then normSegs acc rest
    else if s = ".." then normSegs acc.dropLast rest
    else normSegs (acc ++ [s]) rest

/-- Canonical segment list of an absolute path string. -/
def canonSegs (p : String) : List String := normSegs [] (splitSlash p)

/-- `os.path.realpath` of an absolute path, absent symlinks: lexical
normalisation, rendered back as a string. -/
def realpathStr (p : String) : String := "/" ++ joinSlash (canonSegs p)

/-- Segment-wise containment: the root segments are a prefix of the
candidate segments.  This is what the specification requires of the Path
Guard; it is stated here to compare with the implementation's raw
string-prefix check. -/
def segwiseUnder (root cand : String) : Bool :=
  List.isPrefixOf (canonSegs root) (canonSegs cand)

/- ## Data model -/

/-- `FlatFileItem` (`organizer/models.py`): a path relative to the root
(directories end with `/`), an optional content hash and an optional size. -/
structure FlatFileItem where
  path : String
  hash : Option String := none
  size : Option Nat := none
deriving DecidableEq, Repr

/-- Rendering of `item.hash` inside a Python f-string: `None` when absent. -/
def hashRepr : Option String → String
  | none => "None"
  | some s => s

/-- Python truthiness of the optional hash (`if ... and item.hash`). -/
def hashTruthy : Option String → Bool
  | none => false
  | some s => s ≠ ""

/- ## Differ (`compare_structures`) -/

/-- The per-item comparison key (`item_key` in `compare_structures`). -/
def item_key (files_only : Bool) (item : FlatFileItem) : String :=
  if files_only && !(strEndsWith item.path "/") then
    basenameStr item.path ++ "::" ++ hashRepr item.hash
  else if strEndsWith item.path "/" then item.path
  else item.path ++ "::" ++ hashRepr item.hash

/-- A digest string free of `:` and `/`, as real hex digests (and the
`None` rendering of an absent hash) are; several statements about the
derived keys assume digests of this shape. -/
def cleanHash (s : String) : Bool := !(s.data.contains ':') && !(s.data.contains '/')

/-- Association list standing for a CPython dict: first-insertion position
is kept, a repeated key overwrites the value. -/
def dictInsert (m : List (String × FlatFileItem)) (k : String) (v : FlatFileItem) :
    List (String × FlatFileItem) :=
  if m.any (fun kv => kv.1 == k) then
    m.map (fun kv => if kv.1 == k then (k, v) else kv)
  else m ++ [(k, v)]

/-- Key membership in the dict model. -/
def hasKey (m : List (String × FlatFileItem)) (k : String) : Bool :=
  m.any (fun kv => kv.1 == k)

/-- The dict comprehension building one side's key→item map: items are
inserted in list order; with `files_only` set, directory markers are
filtered out. -/
def buildMap (files_only : Bool) (items : List FlatFileItem) :
    List (String × FlatFileItem) :=
  items.foldl
    (fun m it =>
      if !files_only || !(strEndsWith it.path "/") then
        dictInsert m (item_key files_only it) it
      else m) []

/-- Stable insertion of an item into a path-sorted list (later elements go
after equal paths, matching Python's stable sort). -/
def insertByPath (x : FlatFileItem) : List FlatFileItem → List FlatFileItem
  | [] => [x]
  | y :: ys => if strLt x.path y.path then x :: y :: ys else y :: insertByPath x ys

/-- `sorted(..., key=lambda x: x.path)`. -/
def sortByPath (l : List FlatFileItem) : List FlatFileItem :=
  l.foldl (fun acc x => insertByPath x acc) []

/-- `compare_structures`: flat set difference over derived keys, both sides
returned sorted by path. -/
def compare_structures (current_items desired_items : List FlatFileItem)
    (files_only : Bool) : List FlatFileItem × List FlatFileItem :=
  let current_map := buildMap files_only current_items
  let desired_map := buildMap files_only desired_items
  (sortByPath ((current_map.filter (fun kv => !hasKey desired_map kv.1)).map (·.2)),
   sortByPath ((desired_map.filter (fun kv => !hasKey current_map kv.1)).map (·.2)))

/- ## Filesystem state

Paths are stored canonical (absolute, normalised, no trailing slash);
every operation canonicalises the raw path it receives, which matches a
symlink-free POSIX kernel resolving `..` during lookup. -/

/-- Filesystem state: existing directories and files with their bytes. -/
structure FS where
  dirs : List String
  files : List (String × String)
deriving DecidableEq, Repr

/-- `os.path.isdir`. -/
def FS.isdirAt (fs : FS) (p : String) : Bool := fs.dirs.contains (realpathStr p)

/-- Is there a regular file at the path. -/
def FS.isfileAt (fs : FS) (p : String) : Bool :=
  fs.files.any (fun kv => kv.1 == realpathStr p)

/-- `os.path.exists`. -/
def FS.existsAt (fs : FS) (p : String) : Bool := fs.isdirAt p || fs.isfileAt p

/-- Bytes of the file at a path, if one exists. -/
def FS.lookupFile (fs : FS) (p : String) : Option String :=
  (fs.files.find? (fun kv => kv.1 == realpathStr p)).map (·.2)

/-- The chain of ancestors (outermost first) of a canonical path,
the path itself included. -/
def ancestorPaths (canon : String) : List String :=
  let segs := canonSegs canon
  (List.range segs.length).map (fun i => "/" ++ joinSlash (segs.take (i + 1)))

/-- `os.makedirs(p, exist_ok=True)`: create every missing ancestor;
a regular file in the way raises. -/
def FS.makedirs (fs : FS) (p : String) : Except String FS :=
  let anc := ancestorPaths (realpathStr p)
  if anc.any (fun d => fs.files.any (fun kv => kv.1 == d)) then
    .error "makedirs: FileExistsError"
  else .ok { fs with dirs := fs.dirs ++ anc.filter (fun d => !fs.dirs.contains d) }

/-- `shutil.move(src, dst)` for a regular-file source (the synchronizer
only passes paths taken from file items): a missing source raises; an
existing directory destination receives the file under its own name; an
existing file destination is overwritten. -/
def FS.move (fs : FS) (src dst : String) : Except String FS :=
  let s := realpathStr src
  let d0 := realpathStr dst
  match fs.files.find? (fun kv => kv.1 == s) with
  | none => .error "move: FileNotFoundError"
  | some kv =>
    let d := if fs.dirs.contains d0 then d0 ++ "/" ++ basenameStr s else d0
    if !fs.dirs.contains (pyDirname d) then .error "move: destination parent missing"
    else
      .ok { fs with
        files := (fs.files.filter (fun e => e.1 != s)).filter (fun e => e.1 != d)
          ++ [(d, kv.2)] }

/-- `os.remove`: deletes a regular file; a directory or a missing path
raises. -/
def FS.removeFile (fs : FS) (p : String) : Except String FS :=
  let c := realpathStr p
  if fs.dirs.contains c then .error "remove: IsADirectoryError"
  else if fs.files.any (fun kv => kv.1 == c) then
    .ok { fs with files := fs.files.filter (fun kv => kv.1 != c) }
  else .error "remove: FileNotFoundError"

/-- Does the directory at canonical path `c` contain any entry. -/
def FS.hasChild (fs : FS) (c : String) : Bool :=
  fs.dirs.any (fun d => strStartsWith d (c ++ "/")) ||
    fs.files.any (fun kv => strStartsWith kv.1 (c ++ "/"))

/-- `if os.path.isdir(p): try: os.rmdir(p) except OSError: pass` —
removes the directory when it exists and is empty, otherwise leaves the
state unchanged (the `OSError` is swallowed). -/
def FS.rmdirTry (fs : FS) (p : String) : FS :=
  let c := realpathStr p
  if fs.dirs.contains c && c != "/" && !fs.hasChild c then
    { fs with dirs := fs.dirs.filter (fun d => d != c) }
  else fs

/- ## Synchronizer (`apply_changes`) -/

/-- The hash→item dict built over one side of the diff, directory markers
and falsy hashes excluded; a repeated hash overwrites the kept item
(CPython dict semantics), so the item occurring last in the list wins. -/
def buildHashMap (items : List FlatFileItem) : List (String × FlatFileItem) :=
  items.foldl
    (fun m it =>
      if !(strEndsWith it.path "/") && hashTruthy it.hash then
        dictInsert m (hashRepr it.hash) it
      else m) []

/-- Dict lookup (`m[k]` guarded by `k in m`). -/
def lookupKey (m : List (String × FlatFileItem)) (k : String) : Option FlatFileItem :=
  (m.find? (fun kv => kv.1 == k)).map (·.2)

/-- Phase 1: create the added directory markers; every marker is added to
the handled set whether or not a directory had to be created. -/
def createDirsPhase (root_dir : String) :
    FS × List String → List FlatFileItem → Except String (FS × List String)
  | st, [] => .ok st
  | (fs, handled), item :: rest =>
    if strEndsWith item.path "/" then
      let full := pyJoin root_dir item.path
      if !fs.existsAt full then
        match fs.makedirs full with
        | .error e => .error e
        | .ok fs2 => createDirsPhase root_dir (fs2, handled ++ [item.path]) rest
      else createDirsPhase root_dir (fs, handled ++ [item.path]) rest
    else createDirsPhase root_dir (fs, handled) rest

/-- Phase 2: for each entry of the missing-side hash map whose hash also
appears on the added side, guard-check both endpoints with the raw
`startswith` test and move the file, creating the destination's parent
first; a guard failure skips the pairing without touching the handled
set. -/
def movePhase (root_dir real_root : String)
    (added_by_hash : List (String × FlatFileItem)) :
    FS × List String → List (String × FlatFileItem) → Except String (FS × List String)
  | st, [] => .ok st
  | (fs, handled), (file_hash, old_item) :: rest =>
    match lookupKey added_by_hash file_hash with
    | none => movePhase root_dir real_root added_by_hash (fs, handled) rest
    | some new_item =>
      let full_old := pyJoin root_dir old_item.path
      let full_new := pyJoin root_dir new_item.path
      let real_old := realpathStr full_old
      let real_new := realpathStr full_new
      if !(strStartsWith real_old real_root) || !(strStartsWith real_new real_root) then
        movePhase root_dir real_root added_by_hash (fs, handled) rest
      else
        let dest_dir := pyDirname full_new
        match (if !fs.existsAt dest_dir then fs.makedirs dest_dir else .ok fs) with
        | .error e => .error e
        | .ok fs2 =>
          match fs2.move full_old full_new with
          | .error e => .error e
          | .ok fs3 =>
            movePhase root_dir real_root added_by_hash
              (fs3, handled ++ [old_item.path, new_item.path]) rest

/-- Phase 3: delete each missing file item that is not handled and not a
directory marker, when it passes the guard and still exists. -/
def deletePhase (root_dir real_root : String) :
    FS × List String → List FlatFileItem → Except String (FS × List String)
  | st, [] => .ok st
  | (fs, handled), item :: rest =>
    if handled.contains item.path || strEndsWith item.path "/" then
      deletePhase root_dir real_root (fs, handled) rest
    else
      let full := pyJoin root_dir item.path
      if !(strStartsWith (realpathStr full) real_root) then
        deletePhase root_dir real_root (fs, handled) rest
      else if fs.existsAt full then
        match fs.removeFile full with
        | .error e => .error e
        | .ok fs2 => deletePhase root_dir real_root (fs2, handled ++ [item.path]) rest
      else deletePhase root_dir real_root (fs, handled) rest

/-- The `while current_dir:` loop of phase 4, walking a relative directory
up to the top and adding each step to the candidate set (fuel-bounded;
`pyDirname` shrinks its argument except at the fixpoints the loop itself
breaks on, so the fuel is never exhausted on the inputs reached). -/
def chainUp : Nat → List String → String → List String
  | 0, acc, _ => acc
  | fuel + 1, acc, cur =>
    if cur = "" then acc
    else
      let acc2 := if acc.contains cur then acc else acc ++ [cur]
      let parent := pyDirname cur
      if parent = cur then acc2
      else chainUp fuel acc2 parent

/-- Phase 4 candidate collection: the ancestor chains of every missing
item (the directory itself for a marker, else the file's parent). -/
def collectDirs : List String → List FlatFileItem → List String
  | acc, [] => acc
  | acc, item :: rest =>
    let start :=
      if strEndsWith item.path "/" then pyStripSlash item.path
      else pyDirname item.path
    collectDirs (chainUp (start.length + 2) acc start) rest

/-- Stable insertion for the depth-descending sort of phase 4. -/
def insertByDepth (x : String) : List String → List String
  | [] => [x]
  | y :: ys => if countSep y < countSep x then x :: y :: ys else y :: insertByDepth x ys

/-- `sorted(..., key=separator count, reverse=True)` (stable). -/
def sortByDepthDesc (l : List String) : List String :=
  l.foldl (fun acc x => insertByDepth x acc) []

/-- Phase 4: guard-check each candidate directory and attempt a
non-recursive removal that no-ops when it is absent or non-empty. -/
def prunePhase (root_dir real_root : String) : FS → List String → FS
  | fs, [] => fs
  | fs, dp :: rest =>
    let full := pyJoin root_dir dp
    if !(strStartsWith (realpathStr full) real_root) then
      prunePhase root_dir real_root fs rest
    else prunePhase root_dir real_root (fs.rmdirTry full) rest

/-- `apply_changes`: diff the two item lists and mutate the filesystem in
the four-phase order, with the raw-string-prefix containment check before
every touch.  A missing root is reported and leaves the state unchanged;
an unhandled filesystem exception aborts the run (`Except.error`). -/
def apply_changes (current_items desired_items : List FlatFileItem)
    (root_dir : String) (fs : FS) : Except String FS :=
  if !fs.isdirAt root_dir then .ok fs
  else
    let real_root := realpathStr root_dir
    let md := compare_structures current_items desired_items false
    let missing_items := md.1
    let added_items := md.2
    match createDirsPhase root_dir (fs, []) added_items with
    | .error e => .error e
    | .ok st1 =>
      let missing_by_hash := buildHashMap missing_items
      let added_by_hash := buildHashMap added_items
      match movePhase root_dir real_root added_by_hash st1 missing_by_hash with
      | .error e => .error e
      | .ok st2 =>
        match deletePhase root_dir real_root st2 missing_items with
        | .error e => .error e
        | .ok st3 =>
          let dirs_to_check := collectDirs [] missing_items
          .ok (prunePhase root_dir real_root st3.1 (sortByDepthDesc dirs_to_check))

/- ## Snapshotter (`create_json_from_dir`)

The directory tree under the root is modelled explicitly; the pluggable
content hash (`_calculate_md5`) is an opaque digest carried by each file
entry, and `os.walk` is the recursive traversal of that tree. -/

/-- A regular file inside a directory: its name, content digest and size. -/
structure FileEntry where
  name : String
  hash : String
  size : Nat
deriving DecidableEq, Repr

mutual
/-- A directory: its subdirectories and its regular files. -/
inductive Tree where
  | mk (subdirs : Forest) (files : List FileEntry)
/-- The named subdirectories of a directory. -/
inductive Forest where
  | nil
  | cons (name : String) (tree : Tree) (rest : Forest)
end

/-- Is the forest empty (`not dirnames`). -/
def Forest.isNil : Forest → Bool
  | .nil => true
  | .cons _ _ _ => false

mutual
/-- The body of the `os.walk` loop at relative segments `rel`: an item for
the directory itself when it is exactly empty and not the root, an item per
regular file, then the recursive visits. -/
def walkTree : Tree → List String → List FlatFileItem
  | .mk subdirs files, rel =>
    (if files.isEmpty && subdirs.isNil && !rel.isEmpty then
      [⟨joinSlash rel ++ "/", none, none⟩]
    else []) ++
    files.map (fun f => ⟨joinSlash (rel ++ [f.name]), some f.hash, some f.size⟩) ++
    walkForest subdirs rel
/-- Visit each subdirectory in order. -/
def walkForest : Forest → List String → List FlatFileItem
  | .nil, _ => []
  | .cons name t rest, rel => walkTree t (rel ++ [name]) ++ walkForest rest rel
end

/-- `create_json_from_dir` on an existing root: walk the tree and sort the
items by path. -/
def create_json_from_dir (t : Tree) : List FlatFileItem :=
  sortByPath (walkTree t [])

mutual
/-- Well-formed tree: every file name is nonempty and free of `/`, as real
directory entries are. -/
def TreeWF : Tree → Bool
  | .mk subdirs files =>
    files.all (fun f => f.name != "" && !(f.name.data.contains '/')) && ForestWF subdirs
/-- Well-formedness of every tree of the forest. -/
def ForestWF : Forest → Bool
  | .nil => true
  | .cons _ t rest => TreeWF t && ForestWF rest
end

/-- A named subdirectory of a forest. -/
inductive ForestHas : Forest → String → Tree → Prop where
  | head (name : String) (t : Tree) (rest : Forest) : ForestHas (.cons name t rest) name t
  | tail {f : Forest} (n : String) (t : Tree) {m : String} {u : Tree}
      (h : ForestHas f m u) : ForestHas (.cons n t f) m u

/-- The directory reached from `t` by following the given name segments. -/
inductive NodeAt : Tree → List String → Tree → Prop where
  | refl (t : Tree) : NodeAt t [] t
  | step {sub : Forest} {files : List FileEntry} {n : String} {p : List String}
      {t u : Tree} (h1 : ForestHas sub n t) (h2 : NodeAt t p u) :
      NodeAt (.mk sub files) (n :: p) u

/- ## Theorems -/

deriving instance DecidableEq for Except

/- ### Shared lemmas about the differ's derived keys and sorting -/

lemma mem_insertByPath {a x : FlatFileItem} : ∀ {l : List FlatFileItem},
    a ∈ insertByPath x l ↔ a = x ∨ a ∈ l := by
  intro l
  induction l with
  | nil => simp [insertByPath]
  | cons y ys ih =>
    cases h : strLt x.path y.path
    · simp only [insertByPath, h]
      simp [ih]
      tauto
    · simp [insertByPath, h]

lemma mem_sortByPath {a : FlatFileItem} {l : List FlatFileItem} :
    a ∈ sortByPath l ↔ a ∈ l := by
  have haux : ∀ (l acc : List FlatFileItem) (b : FlatFileItem),
      b ∈ l.foldl (fun acc x => insertByPath x acc) acc ↔ b ∈ acc ∨ b ∈ l := by
    intro l
    induction l with
    | nil => simp
    | cons x xs ih =>
      intro acc b
      rw [List.foldl_cons, ih]
      simp [mem_insertByPath]
      tauto
  simpa [sortByPath] using haux l [] a

lemma colon_split : ∀ (u v a b : List Char), ':' ∉ u → ':' ∉ v →
    u ++ ':' :: a = v ++ ':' :: b → u = v ∧ a = b := by
  intro u
  induction u with
  | nil =>
    intro v a b _ hv h
    cases v with
    | nil =>
      simp only [List.nil_append] at h
      injection h with h1 h2
      exact ⟨rfl, h2⟩
    | cons d ds =>
      simp only [List.nil_append, List.cons_append] at h
      injection h with h1 h2
      subst h1
      exact absurd (List.mem_cons_self _ _) hv
  | cons c cs ih =>
    intro v a b hu hv h
    cases v with
    | nil =>
      simp only [List.cons_append, List.nil_append] at h
      injection h with h1 h2
      subst h1
      exact absurd (List.mem_cons_self _ _) hu
    | cons d ds =>
      simp only [List.cons_append] at h
      injection h with h1 h2
      subst h1
      have hu2 : ':' ∉ cs := fun hh => hu (List.mem_cons_of_mem _ hh)
      have hv2 : ':' ∉ ds := fun hh => hv (List.mem_cons_of_mem _ hh)
      obtain ⟨e1, e2⟩ := ih ds a b hu2 hv2 h2
      exact ⟨by rw [e1], e2⟩

lemma not_colon_mem_of_clean {h : String} (hc : cleanHash h = true) : ':' ∉ h.data := by
  simp [cleanHash] at hc
  simpa using hc.1

lemma not_slash_mem_of_clean {h : String} (hc : cleanHash h = true) : '/' ∉ h.data := by
  simp [cleanHash] at hc
  simpa using hc.2

lemma key_data (P h : String) : (P ++ "::" ++ h).data = P.data ++ ':' :: ':' :: h.data := by
  simp

lemma key_not_endswith_slash (P h : String) (hclean : cleanHash h = true) :
    strEndsWith (P ++ "::" ++ h) "/" = false := by
  have hrev : (P ++ "::" ++ h).data.reverse
      = h.data.reverse ++ ':' :: ':' :: P.data.reverse := by
    rw [key_data]; simp
  have hpre : strEndsWith (P ++ "::" ++ h) "/"
      = List.isPrefixOf ['/'] (P ++ "::" ++ h).data.reverse := by
    simp [strEndsWith, List.isSuffixOf]
  rw [hpre, hrev]
  cases hr : h.data.reverse with
  | nil => simp [List.isPrefixOf]
  | cons c cs =>
    have hcmem : c ∈ h.data := List.mem_reverse.mp (hr ▸ List.mem_cons_self c cs)
    have hcne : c ≠ '/' := fun he => not_slash_mem_of_clean hclean (he ▸ hcmem)
    simp [List.isPrefixOf, List.cons_append]
    exact fun he => absurd he.symm hcne

lemma item_key_false_file {it : FlatFileItem} (h : strEndsWith it.path "/" = false) :
    item_key false it = it.path ++ "::" ++ hashRepr it.hash := by
  simp [item_key, h]

lemma item_key_false_dir {it : FlatFileItem} (h : strEndsWith it.path "/" = true) :
    item_key false it = it.path := by
  simp [item_key, h]

lemma rev_key (p h : List Char) :
    (p ++ ':' :: ':' :: h).reverse = h.reverse ++ ':' :: ':' :: p.reverse := by
  simp

lemma key_file_shape (it : FlatFileItem) (P h1 : String)
    (hcit : cleanHash (hashRepr it.hash) = true) (hch : cleanHash h1 = true)
    (hkey : item_key false it = P ++ "::" ++ h1) :
    it.path = P ∧ hashRepr it.hash = h1 := by
  cases hend : strEndsWith it.path "/"
  · rw [item_key_false_file hend] at hkey
    have hdata := congrArg String.data hkey
    rw [key_data, key_data] at hdata
    have hrev := congrArg List.reverse hdata
    rw [rev_key, rev_key] at hrev
    obtain ⟨e1, e2⟩ := colon_split _ _ _ _
      (fun hh => not_colon_mem_of_clean hcit (List.mem_reverse.mp hh))
      (fun hh => not_colon_mem_of_clean hch (List.mem_reverse.mp hh)) hrev
    injection e2 with _ e3
    constructor
    · apply String.ext
      have := congrArg List.reverse e3
      simpa using this
    · apply String.ext
      have := congrArg List.reverse e1
      simpa using this
  · rw [item_key_false_dir hend] at hkey
    rw [hkey] at hend
    rw [key_not_endswith_slash P h1 hch] at hend
    exact absurd hend (by simp)

lemma item_key_inj_path (a b : FlatFileItem)
    (hca : cleanHash (hashRepr a.hash) = true) (hcb : cleanHash (hashRepr b.hash) = true)
    (hk : item_key false a = item_key false b) : a.path = b.path := by
  cases henda : strEndsWith a.path "/"
  · rw [item_key_false_file henda] at hk
    exact (key_file_shape b a.path (hashRepr a.hash) hcb hca hk.symm).1.symm
  · cases hendb : strEndsWith b.path "/"
    · rw [item_key_false_dir henda, item_key_false_file hendb] at hk
      rw [hk] at henda
      rw [key_not_endswith_slash b.path (hashRepr b.hash) hcb] at henda
      exact absurd henda (by simp)
    · rw [item_key_false_dir henda, item_key_false_dir hendb] at hk
      exact hk

lemma keys_pairwise (l : List FlatFileItem)
    (hcl : ∀ it ∈ l, cleanHash (hashRepr it.hash) = true)
    (hnd : (l.map (·.path)).Nodup) :
    List.Pairwise (fun a b => item_key false a ≠ item_key false b) l := by
  have hpw : List.Pairwise (fun a b : FlatFileItem => a.path ≠ b.path) l :=
    List.pairwise_map.mp hnd
  refine hpw.imp_of_mem ?_
  intro a b ha hb hne he
  exact hne (item_key_inj_path a b (hcl a ha) (hcl b hb) he)

lemma buildMap_false_eq (l : List FlatFileItem)
    (hpw : List.Pairwise (fun a b => item_key false a ≠ item_key false b) l) :
    buildMap false l = l.map (fun it => (item_key false it, it)) := by
  have h0 : buildMap false l
      = l.foldl (fun m it => dictInsert m (item_key false it) it) [] := rfl
  rw [h0]
  suffices haux : ∀ (l2 : List FlatFileItem) (acc : List (String × FlatFileItem)),
      (∀ it ∈ l2, hasKey acc (item_key false it) = false) →
      List.Pairwise (fun a b => item_key false a ≠ item_key false b) l2 →
      l2.foldl (fun m it => dictInsert m (item_key false it) it) acc
        = acc ++ l2.map (fun it => (item_key false it, it)) by
    simpa using haux l [] (by intro it _; rfl) hpw
  intro l2
  induction l2 with
  | nil => intro acc _ _; simp
  | cons it rest ih =>
    intro acc hacc hpw2
    rw [List.pairwise_cons] at hpw2
    rw [List.foldl_cons]
    have hnotin := hacc it (List.mem_cons_self _ _)
    have hins : dictInsert acc (item_key false it) it
        = acc ++ [(item_key false it, it)] := by
      rw [dictInsert]
      rw [show (acc.any fun kv => kv.1 == item_key false it) = false from hnotin]
      simp
    rw [hins]
    rw [ih (acc ++ [(item_key false it, it)]) ?_ hpw2.2]
    · simp
    · intro it2 hit2
      rw [hasKey, List.any_append]
      rw [show (acc.any fun kv => kv.1 == item_key false it2) = false from
        hacc it2 (List.mem_cons_of_mem _ hit2)]
      simp only [Bool.false_or, List.any_cons, List.any_nil, Bool.or_false]
      exact beq_eq_false_iff_ne.mpr (hpw2.1 it2 hit2)

lemma hasKey_map_keys (l : List FlatFileItem) (k : String) :
    hasKey (l.map (fun it => (item_key false it, it))) k
      = l.any (fun it => item_key false it == k) := by
  induction l with
  | nil => rfl
  | cons it rest ih =>
    rw [List.map_cons, hasKey, List.any_cons, List.any_cons, ← hasKey, ih]

lemma compare_missing_mem
    (current desired : List FlatFileItem) (P h1 h2 : String) (s1 s2 : Option Nat)
    (hmem1 : (⟨P, some h1, s1⟩ : FlatFileItem) ∈ current)
    (hmem2 : (⟨P, some h2, s2⟩ : FlatFileItem) ∈ desired)
    (hne : h1 ≠ h2)
    (hfile : strEndsWith P "/" = false)
    (hnd1 : (current.map (·.path)).Nodup)
    (hnd2 : (desired.map (·.path)).Nodup)
    (hcl1 : ∀ it ∈ current, cleanHash (hashRepr it.hash) = true)
    (hcl2 : ∀ it ∈ desired, cleanHash (hashRepr it.hash) = true) :
    (⟨P, some h1, s1⟩ : FlatFileItem) ∈ (compare_structures current desired false).1 := by
  have hclh1 : cleanHash h1 = true := hcl1 _ hmem1
  have hk0 : item_key false (⟨P, some h1, s1⟩ : FlatFileItem) = P ++ "::" ++ h1 := by
    simp [item_key, hfile, hashRepr]
  have hpk1 := keys_pairwise current hcl1 hnd1
  have hpk2 := keys_pairwise desired hcl2 hnd2
  show (⟨P, some h1, s1⟩ : FlatFileItem) ∈ sortByPath
    (((buildMap false current).filter
        (fun kv => !hasKey (buildMap false desired) kv.1)).map (·.2))
  rw [mem_sortByPath, buildMap_false_eq current hpk1, buildMap_false_eq desired hpk2]
  have hnotin : hasKey (desired.map (fun it => (item_key false it, it)))
      (item_key false (⟨P, some h1, s1⟩ : FlatFileItem)) = false := by
    rw [hasKey_map_keys]
    rw [List.any_eq_false]
    intro it hit
    rw [Bool.not_eq_true, beq_eq_false_iff_ne]
    intro he
    rw [hk0] at he
    obtain ⟨hp, hh⟩ := key_file_shape it P h1 (hcl2 it hit) hclh1 he
    have hit_eq : it = (⟨P, some h2, s2⟩ : FlatFileItem) :=
      List.inj_on_of_nodup_map hnd2 hit hmem2 (by rw [hp])
    rw [hit_eq] at hh
    exact hne (by simpa [hashRepr] using hh.symm)
  rw [List.mem_map]
  refine ⟨(item_key false (⟨P, some h1, s1⟩ : FlatFileItem), ⟨P, some h1, s1⟩), ?_, rfl⟩
  rw [List.mem_filter]
  constructor
  · rw [List.mem_map]
    exact ⟨⟨P, some h1, s1⟩, hmem1, rfl⟩
  · rw [hnotin]
    rfl

/- ### Shared lemmas about the snapshotter's walk -/

lemma strEndsWith_append_slash (s : String) : strEndsWith (s ++ "/") "/" = true := by
  have h : (s ++ "/").data.reverse = '/' :: s.data.reverse := by simp
  simp [strEndsWith, List.isSuffixOf, h, List.isPrefixOf]

lemma strEndsWith_slash_false_of_last {s : String} {c : Char} {cs : List Char}
    (h : s.data.reverse = c :: cs) (hc : c ≠ '/') : strEndsWith s "/" = false := by
  simp [strEndsWith, List.isSuffixOf, h, List.isPrefixOf]
  exact fun he => absurd he.symm hc

lemma strEndsWith_slash_false_of_clean (n : String) (hn1 : n ≠ "") (hn2 : '/' ∉ n.data) :
    strEndsWith n "/" = false := by
  have hnd : n.data ≠ [] := fun hh => hn1 (String.ext hh)
  cases hr : n.data.reverse with
  | nil => exact absurd (by simpa using hr) hnd
  | cons c cs =>
    have hcmem : c ∈ n.data := List.mem_reverse.mp (hr ▸ List.mem_cons_self c cs)
    exact strEndsWith_slash_false_of_last hr (fun he => hn2 (he ▸ hcmem))

lemma strEndsWith_slash_append_false (x n : String) (hn1 : n ≠ "") (hn2 : '/' ∉ n.data) :
    strEndsWith (x ++ n) "/" = false := by
  have hnd : n.data ≠ [] := fun hh => hn1 (String.ext hh)
  cases hr : n.data.reverse with
  | nil => exact absurd (by simpa using hr) hnd
  | cons c cs =>
    have hcmem : c ∈ n.data := List.mem_reverse.mp (hr ▸ List.mem_cons_self c cs)
    have hc : c ≠ '/' := fun he => hn2 (he ▸ hcmem)
    have hx : (x ++ n).data.reverse = c :: (cs ++ x.data.reverse) := by
      simp [hr]
    exact strEndsWith_slash_false_of_last hx hc

lemma joinSlash_append_single : ∀ (l : List String) (n : String),
    joinSlash (l ++ [n]) = if l.isEmpty then n else joinSlash l ++ "/" ++ n
  | [], n => by simp [joinSlash]
  | [s], n => by simp [joinSlash]
  | s :: s2 :: rest, n => by
    rw [show (s :: s2 :: rest) ++ [n] = s :: ((s2 :: rest) ++ [n]) from rfl]
    rw [joinSlash]
    · rw [joinSlash_append_single (s2 :: rest) n]
      simp [joinSlash, String.append_assoc]
    · simp

lemma file_item_not_slash (rel : List String) (n : String)
    (hn1 : n ≠ "") (hn2 : '/' ∉ n.data) :
    strEndsWith (joinSlash (rel ++ [n])) "/" = false := by
  rw [joinSlash_append_single]
  cases rel with
  | nil =>
    simp only [List.isEmpty_nil, if_true]
    exact strEndsWith_slash_false_of_clean n hn1 hn2
  | cons s rest =>
    simp only [List.isEmpty_cons, if_false]
    exact strEndsWith_slash_append_false _ n hn1 hn2

lemma forest_walk_mem {f : Forest} {n : String} {t : Tree} (h : ForestHas f n t) :
    ∀ (rel : List String) (it : FlatFileItem),
      it ∈ walkTree t (rel ++ [n]) → it ∈ walkForest f rel := by
  induction h with
  | head name t2 rest =>
    intro rel it hit
    rw [walkForest]
    exact List.mem_append.mpr (Or.inl hit)
  | tail n2 t2 h2 ih =>
    intro rel it hit
    rw [walkForest]
    exact List.mem_append.mpr (Or.inr (ih rel it hit))

lemma walkTree_complete_aux {t : Tree} {p : List String} {u : Tree}
    (h : NodeAt t p u) : u = Tree.mk Forest.nil [] →
    ∀ rel : List String, rel ++ p ≠ [] →
      (⟨joinSlash (rel ++ p) ++ "/", none, none⟩ : FlatFileItem) ∈ walkTree t rel := by
  induction h with
  | refl t2 =>
    intro hu rel hne
    subst hu
    have hrel : rel ≠ [] := by simpa using hne
    rw [walkTree]
    have hcond : (List.isEmpty ([] : List FileEntry) && Forest.isNil Forest.nil && !rel.isEmpty) = true := by
      cases rel with
      | nil => exact absurd rfl hrel
      | cons a as => simp [Forest.isNil]
    rw [hcond]
    simp
  | @step sub files n2 p2 t2 u2 h1 h2 ih =>
    intro hu rel hne
    have hne2 : (rel ++ [n2]) ++ p2 ≠ [] := by simp
    have hmem := ih hu (rel ++ [n2]) hne2
    have hmem2 := forest_walk_mem h1 rel _ hmem
    rw [walkTree]
    refine List.mem_append.mpr (Or.inr ?_)
    rw [show (rel ++ [n2]) ++ p2 = rel ++ n2 :: p2 from by simp] at hmem2
    exact hmem2

lemma walkTree_complete {t : Tree} {p : List String}
    (h : NodeAt t p (Tree.mk Forest.nil [])) :
    ∀ rel : List String, rel ++ p ≠ [] →
      (⟨joinSlash (rel ++ p) ++ "/", none, none⟩ : FlatFileItem) ∈ walkTree t rel :=
  walkTree_complete_aux h rfl

mutual
theorem walkTree_dir_sound : ∀ (t : Tree) (rel : List String) (it : FlatFileItem),
    TreeWF t = true → it ∈ walkTree t rel → strEndsWith it.path "/" = true →
    ∃ p, NodeAt t p (Tree.mk Forest.nil []) ∧ rel ++ p ≠ []
      ∧ it = ⟨joinSlash (rel ++ p) ++ "/", none, none⟩
  | Tree.mk sub files, rel, it, hwf, hmem, hend => by
    rw [walkTree] at hmem
    rw [TreeWF, Bool.and_eq_true] at hwf
    rcases List.mem_append.mp hmem with hmem1 | hmem3
    · rcases List.mem_append.mp hmem1 with hmem0 | hmem2
      · by_cases hc : (files.isEmpty && Forest.isNil sub && !rel.isEmpty) = true
        · rw [if_pos hc] at hmem0
          rw [Bool.and_eq_true, Bool.and_eq_true] at hc
          have hfiles : files = [] := by
            have := hc.1.1
            cases files with
            | nil => rfl
            | cons a b => simp at this
          have hsub : sub = Forest.nil := by
            have := hc.1.2
            cases sub with
            | nil => rfl
            | cons a b c => simp [Forest.isNil] at this
          have hrel : rel ≠ [] := by
            have h2 := hc.2
            intro hr
            subst hr
            simp at h2
          subst hfiles
          subst hsub
          refine ⟨[], NodeAt.refl _, by simpa using hrel, ?_⟩
          simpa using List.mem_singleton.mp hmem0
        · rw [if_neg hc] at hmem0
          exact absurd hmem0 (List.not_mem_nil it)
      · obtain ⟨f, hf, heq⟩ := List.mem_map.mp hmem2
        have hpred := List.all_eq_true.mp hwf.1 f hf
        rw [Bool.and_eq_true] at hpred
        have hn1 : f.name ≠ "" := by simpa using hpred.1
        have hn2 : '/' ∉ f.name.data := by simpa using hpred.2
        have hend2 : strEndsWith (joinSlash (rel ++ [f.name])) "/" = true := by
          rw [← heq] at hend
          exact hend
        rw [file_item_not_slash rel f.name hn1 hn2] at hend2
        exact absurd hend2 (by simp)
    · obtain ⟨n, t2, p, hfh, hna, heq⟩ :=
        walkForest_dir_sound sub rel it hwf.2 hmem3 hend
      refine ⟨n :: p, NodeAt.step hfh hna, by simp, ?_⟩
      rw [heq, show (rel ++ [n]) ++ p = rel ++ n :: p from by simp]

theorem walkForest_dir_sound : ∀ (f : Forest) (rel : List String) (it : FlatFileItem),
    ForestWF f = true → it ∈ walkForest f rel → strEndsWith it.path "/" = true →
    ∃ n t2 p, ForestHas f n t2 ∧ NodeAt t2 p (Tree.mk Forest.nil [])
      ∧ it = ⟨joinSlash ((rel ++ [n]) ++ p) ++ "/", none, none⟩
  | Forest.nil, rel, it, hwf, hmem, hend => by
    rw [walkForest] at hmem
    exact absurd hmem (List.not_mem_nil it)
  | Forest.cons name t rest, rel, it, hwf, hmem, hend => by
    rw [walkForest] at hmem
    rw [ForestWF, Bool.and_eq_true] at hwf
    rcases List.mem_append.mp hmem with h1 | h2
    · obtain ⟨p, hna, hne, heq⟩ := walkTree_dir_sound t (rel ++ [name]) it hwf.1 h1 hend
      exact ⟨name, t, p, ForestHas.head _ _ _, hna, heq⟩
    · obtain ⟨n, t2, p, hfh, hna, heq⟩ :=
        walkForest_dir_sound rest rel it hwf.2 h2 hend
      exact ⟨n, t2, p, ForestHas.tail _ _ hfh, hna, heq⟩
end

/-- Claim C1: the specification requires the Path Guard to compare the
canonicalized candidate against the canonicalized root by path segment, so
that a sibling such as `/root-other` is rejected under boundary `/root`.
The code instead guards with a raw string-prefix test
(`realpath(candidate).startswith(realpath(root))`), which accepts the
canonical sibling `/root-other/x.txt` even though it is not at or under
`/root` segment-wise: the deletion/move/prune guard lets the operation
proceed. -/
theorem c1_guard_accepts_prefix_sibling :
    strStartsWith (realpathStr (pyJoin "/root" "../root-other/x.txt"))
        (realpathStr "/root") = true
    ∧ segwiseUnder "/root" (pyJoin "/root" "../root-other/x.txt") = false := by
  decide

/-- Claim C2, counterexample: with root `/root`, current item `a/f.txt`
(hash `h`, present on disk) and desired item `../out.txt` with the same
hash, the phase-2 destination guard fails and the pairing is skipped — but
the source path was not marked handled, so phase 3 deletes `a/f.txt`: the
source file does NOT remain in place after the sync completes. -/
theorem c2_skipped_pairing_source_deleted :
    (FS.lookupFile ⟨["/", "/root", "/root/a"], [("/root/a/f.txt", "data")]⟩
        "/root/a/f.txt" = some "data")
    ∧ apply_changes [⟨"a/f.txt", some "h", some 4⟩] [⟨"../out.txt", some "h", some 4⟩]
        "/root" ⟨["/", "/root", "/root/a"], [("/root/a/f.txt", "data")]⟩
      = .ok ⟨["/", "/root"], []⟩ := by
  decide

/-- Claim C2, amended: both endpoints are guard-checked and a failed check
skips the pairing without marking either path handled.  When the source's
own check fails, the source file survives the whole sync (phase 3 re-runs
the identical check and also skips it); when only the destination's check
fails, the source file is deleted by phase 3 if it passes the guard and
still exists.  The first conjunct is the source-outside scenario (state
unchanged); the second is the destination-outside scenario (source file
gone). -/
theorem c2_guard_failure_behaviour :
    apply_changes [⟨"../s/f.txt", some "h", some 4⟩] [⟨"b/f.txt", some "h", some 4⟩]
        "/root" ⟨["/", "/root", "/s"], [("/s/f.txt", "data")]⟩
      = .ok ⟨["/", "/root", "/s"], [("/s/f.txt", "data")]⟩
    ∧ apply_changes [⟨"a/f.txt", some "h", some 4⟩] [⟨"../out.txt", some "h", some 4⟩]
        "/root" ⟨["/", "/root", "/root/a"], [("/root/a/f.txt", "data")]⟩
      = .ok ⟨["/", "/root"], []⟩ := by
  decide

/-- Claim C3, counterexample: sync is not idempotent.  With
current = `[a/x.txt (hash h)]`, desired = `[b/x.txt (hash h)]`, the first
run moves the file; the second run recomputes the same diff from the
unchanged item lists, re-attempts the move, and `shutil.move` raises on
the now-absent source — the second run errors rather than performing zero
mutations and completing without error. -/
theorem c3_second_run_errors :
    apply_changes [⟨"a/x.txt", some "h", some 7⟩] [⟨"b/x.txt", some "h", some 7⟩]
        "/root" ⟨["/", "/root", "/root/a"], [("/root/a/x.txt", "content")]⟩
      = .ok ⟨["/", "/root", "/root/b"], [("/root/b/x.txt", "content")]⟩
    ∧ apply_changes [⟨"a/x.txt", some "h", some 7⟩] [⟨"b/x.txt", some "h", some 7⟩]
        "/root" ⟨["/", "/root", "/root/b"], [("/root/b/x.txt", "content")]⟩
      = .error "move: FileNotFoundError" := by
  decide

/-- Claim C3, amended: an immediate second run of sync with the same
`(current, desired)` pair is not idempotent.  When the first run paired
files by hash, the second run recomputes the same diff from the unchanged
item lists, re-attempts the move, and fails with `FileNotFoundError` on
the now-absent source (first conjunct).  Even with no hash pairing the
second run is not mutation-free: phase 4 never consults the handled set,
so the first run prunes a desired directory that became empty (second
conjunct: `d/` is desired, yet the final state lacks `/root/d`); the
second run then re-creates that directory in phase 1 (third conjunct:
the state after phase 1 holds `/root/d` again — a fresh mutation, not a
skip) and prunes it again in phase 4, completing without error at the
first run's final state (fourth conjunct) by re-doing mutations rather
than skipping them. -/
theorem c3_second_run_repeats_mutations :
    apply_changes [⟨"a/x.txt", some "h", some 7⟩] [⟨"b/x.txt", some "h", some 7⟩]
        "/root" ⟨["/", "/root", "/root/b"], [("/root/b/x.txt", "content")]⟩
      = .error "move: FileNotFoundError"
    ∧ apply_changes [⟨"d/x.txt", some "h", some 1⟩] [⟨"d/", none, none⟩]
        "/root" ⟨["/", "/root", "/root/d"], [("/root/d/x.txt", "c")]⟩
      = .ok ⟨["/", "/root"], []⟩
    ∧ createDirsPhase "/root" (⟨["/", "/root"], []⟩, [])
        (compare_structures [⟨"d/x.txt", some "h", some 1⟩] [⟨"d/", none, none⟩] false).2
      = .ok (⟨["/", "/root", "/root/d"], []⟩, ["d/"])
    ∧ apply_changes [⟨"d/x.txt", some "h", some 1⟩] [⟨"d/", none, none⟩]
        "/root" ⟨["/", "/root"], []⟩
      = .ok ⟨["/", "/root"], []⟩ := by
  decide

/-- Claim C4: the containment property fails.  The current list holds the
item `../root-other/x.txt`, which resolves outside the canonical root
`/root` — yet sync deletes the file `/root-other/x.txt` and prunes the
directory `/root-other` outside the root, because the raw
string-prefix guard accepts `/root-other` under boundary `/root`.
Before the run the outside file holds `secret`; afterwards both it and
its directory are gone. -/
theorem c4_mutates_outside_root :
    (FS.lookupFile ⟨["/", "/root", "/root-other"], [("/root-other/x.txt", "secret")]⟩
        "/root-other/x.txt" = some "secret")
    ∧ apply_changes [⟨"../root-other/x.txt", some "h", some 6⟩] []
        "/root" ⟨["/", "/root", "/root-other"], [("/root-other/x.txt", "secret")]⟩
      = .ok ⟨["/", "/root"], []⟩ := by
  decide

/-- Claim C5: with `filesOnly`, a file's comparison key is its base
filename plus hash (directory location ignored) and directory markers are
excluded from the comparison entirely; consequently two single-file
snapshots holding the same basename and hash at different directories
compare as `([], [])`. -/
theorem c5_files_only_ignores_location :
    (∀ (p : String) (h : Option String) (s : Option Nat),
      item_key true ⟨p, h, s⟩ =
        if strEndsWith p "/" then p else basenameStr p ++ "::" ++ hashRepr h)
    ∧ (∀ l1 l2 : List FlatFileItem,
        compare_structures l1 l2 true =
          compare_structures (l1.filter (fun it => !(strEndsWith it.path "/")))
            (l2.filter (fun it => !(strEndsWith it.path "/"))) true)
    ∧ (∀ (h : String) (s1 s2 : Option Nat),
        compare_structures [⟨"a/f.txt", some h, s1⟩] [⟨"z/f.txt", some h, s2⟩] true
          = ([], [])) := by
  refine ⟨?_, ?_, ?_⟩
  · intro p h s
    by_cases hp : strEndsWith p "/" = true <;> simp [item_key, hp]
  · have haux : ∀ (f : List (String × FlatFileItem) → FlatFileItem → List (String × FlatFileItem)),
        (∀ m it, strEndsWith it.path "/" = true → f m it = m) →
        ∀ (l : List FlatFileItem) (acc : List (String × FlatFileItem)),
          l.foldl f acc = (l.filter (fun it => !(strEndsWith it.path "/"))).foldl f acc := by
      intro f hf l
      induction l with
      | nil => intro acc; rfl
      | cons it rest ih =>
        intro acc
        cases hit : strEndsWith it.path "/"
        · simp [List.filter_cons, hit, List.foldl_cons, ih]
        · simp [List.filter_cons, hit, List.foldl_cons, hf acc it hit, ih]
    have hmap : ∀ l : List FlatFileItem,
        buildMap true l = buildMap true (l.filter (fun it => !(strEndsWith it.path "/"))) := by
      intro l
      have h0 : buildMap true l = l.foldl (fun m it =>
          if !(strEndsWith it.path "/") then dictInsert m (item_key true it) it else m) [] :=
        rfl
      have h1 : buildMap true (l.filter (fun it => !(strEndsWith it.path "/")))
          = (l.filter (fun it => !(strEndsWith it.path "/"))).foldl (fun m it =>
              if !(strEndsWith it.path "/") then dictInsert m (item_key true it) it else m)
              [] := rfl
      rw [h0, h1]
      exact haux _ (fun m it h => by simp [h]) l []
    intro l1 l2
    simp only [compare_structures]
    rw [hmap l1, hmap l2]
  · intro h s1 s2
    have hk : (("f.txt::" ++ h) == ("f.txt::" ++ h)) = true := by simp
    simp +decide [compare_structures, buildMap, item_key, basenameStr, splitSlash,
      splitCharsOn, hashRepr, dictInsert, hasKey, sortByPath, strEndsWith, hk]

/-- Claim C6: when a file exists at the same (non-directory) path on both
sides of a default-mode comparison but with different hashes, the
current-side item appears in `missing` and the desired-side item in
`added`, both at that path.  The snapshots may hold other items; the
snapshot invariant (no two items share a path) and digests free of `:`
and `/` are assumed. -/
theorem c6_changed_content_in_both
    (current desired : List FlatFileItem) (P h1 h2 : String) (s1 s2 : Option Nat)
    (hmem1 : (⟨P, some h1, s1⟩ : FlatFileItem) ∈ current)
    (hmem2 : (⟨P, some h2, s2⟩ : FlatFileItem) ∈ desired)
    (hne : h1 ≠ h2)
    (hfile : strEndsWith P "/" = false)
    (hnd1 : (current.map (·.path)).Nodup)
    (hnd2 : (desired.map (·.path)).Nodup)
    (hcl1 : ∀ it ∈ current, cleanHash (hashRepr it.hash) = true)
    (hcl2 : ∀ it ∈ desired, cleanHash (hashRepr it.hash) = true) :
    (⟨P, some h1, s1⟩ : FlatFileItem) ∈ (compare_structures current desired false).1
    ∧ (⟨P, some h2, s2⟩ : FlatFileItem) ∈ (compare_structures current desired false).2 := by
  constructor
  · exact compare_missing_mem current desired P h1 h2 s1 s2 hmem1 hmem2 hne hfile
      hnd1 hnd2 hcl1 hcl2
  · have hswap : (compare_structures current desired false).2
        = (compare_structures desired current false).1 := rfl
    rw [hswap]
    exact compare_missing_mem desired current P h2 h1 s2 s1 hmem2 hmem1 (Ne.symm hne)
      hfile hnd2 hnd1 hcl2 hcl1

/-- Claim C6, witness: `p/f.txt` changed content from hash `a1` to `b2`
(alongside an unchanged directory marker) and shows up on both sides of
the diff at that path. -/
theorem c6_changed_content_in_both_witness :
    (⟨"p/f.txt", some "a1", some 3⟩ : FlatFileItem)
      ∈ (compare_structures
          [⟨"p/f.txt", some "a1", some 3⟩, ⟨"q/", none, none⟩]
          [⟨"p/f.txt", some "b2", some 4⟩, ⟨"q/", none, none⟩] false).1
    ∧ (⟨"p/f.txt", some "b2", some 4⟩ : FlatFileItem)
      ∈ (compare_structures
          [⟨"p/f.txt", some "a1", some 3⟩, ⟨"q/", none, none⟩]
          [⟨"p/f.txt", some "b2", some 4⟩, ⟨"q/", none, none⟩] false).2 :=
  c6_changed_content_in_both
    [⟨"p/f.txt", some "a1", some 3⟩, ⟨"q/", none, none⟩]
    [⟨"p/f.txt", some "b2", some 4⟩, ⟨"q/", none, none⟩]
    "p/f.txt" "a1" "b2" (some 3) (some 4)
    (by decide) (by decide) (by decide) (by decide) (by decide) (by decide)
    (by decide) (by decide)

/-- Claim C7: over any well-formed directory tree, the snapshot contains
a directory item (path with trailing `/`) exactly for the exactly-empty
non-root directories: an emitted `/`-terminated item always denotes a
reachable node with no files and no subdirectories at a non-empty segment
path, and every such node is emitted.  The root itself is never emitted:
an empty root yields the empty sequence rather than an error. -/
theorem c7_snapshot_emits_exactly_empty_dirs :
    (∀ (t : Tree) (it : FlatFileItem), TreeWF t = true →
      ((it ∈ create_json_from_dir t ∧ strEndsWith it.path "/" = true) ↔
        ∃ p, p ≠ [] ∧ NodeAt t p (Tree.mk Forest.nil [])
          ∧ it = ⟨joinSlash p ++ "/", none, none⟩))
    ∧ create_json_from_dir (Tree.mk Forest.nil []) = [] := by
  constructor
  · intro t it hwf
    constructor
    · rintro ⟨hmem, hend⟩
      rw [create_json_from_dir, mem_sortByPath] at hmem
      obtain ⟨p, hna, hne, heq⟩ := walkTree_dir_sound t [] it hwf hmem hend
      exact ⟨p, by simpa using hne, hna, by simpa using heq⟩
    · rintro ⟨p, hpne, hna, rfl⟩
      refine ⟨?_, strEndsWith_append_slash _⟩
      rw [create_json_from_dir, mem_sortByPath]
      have hm := walkTree_complete hna [] (by simpa using hpne)
      simpa using hm
  · rfl

/-- Claim C8: for a root holding exactly the file `a/x.txt` with hash `H`
(any non-empty digest) and bytes `c`, and desired list `[b/x.txt]` with
the same hash, sync moves the file: afterwards `a/x.txt` is absent,
`b/x.txt` holds the original bytes, and the emptied directory `a` has
been pruned while `b` was created. -/
theorem c8_move_by_hash (H : String) (S : Nat) (c : String) (hH : H ≠ "") :
    apply_changes [⟨"a/x.txt", some H, some S⟩] [⟨"b/x.txt", some H, some S⟩] "/root"
        ⟨["/", "/root", "/root/a"], [("/root/a/x.txt", c)]⟩
      = .ok ⟨["/", "/root", "/root/b"], [("/root/b/x.txt", c)]⟩
    ∧ FS.lookupFile ⟨["/", "/root", "/root/b"], [("/root/b/x.txt", c)]⟩ "/root/b/x.txt"
      = some c
    ∧ FS.existsAt ⟨["/", "/root", "/root/b"], [("/root/b/x.txt", c)]⟩ "/root/a/x.txt"
      = false
    ∧ FS.isdirAt ⟨["/", "/root", "/root/b"], [("/root/b/x.txt", c)]⟩ "/root/a"
      = false := by
  refine ⟨?_, by simp +decide [FS.lookupFile, realpathStr, canonSegs, normSegs, splitSlash,
      splitCharsOn, joinSlash],
    by simp +decide [FS.existsAt, FS.isdirAt, FS.isfileAt, realpathStr, canonSegs, normSegs,
      splitSlash, splitCharsOn, joinSlash, String.ext_iff],
    by simp +decide [FS.isdirAt, realpathStr, canonSegs, normSegs, splitSlash,
      splitCharsOn, joinSlash]⟩
  have h1 : (("a/x.txt::" ++ H) == ("b/x.txt::" ++ H)) = false := by simp [String.ext_iff]
  have h2 : (("b/x.txt::" ++ H) == ("a/x.txt::" ++ H)) = false := by simp [String.ext_iff]
  have h4 : (decide (H ≠ "")) = true := by simp [hH]
  set_option maxRecDepth 4096 in
  simp +decide [apply_changes, compare_structures, buildMap, dictInsert, item_key, hashRepr,
    hasKey, sortByPath, insertByPath, h1, h2, h4, hH, strEndsWith, strStartsWith,
    buildHashMap, hashTruthy, lookupKey, createDirsPhase, movePhase, deletePhase, chainUp,
    collectDirs, sortByDepthDesc, insertByDepth, prunePhase, FS.isdirAt, FS.existsAt,
    FS.isfileAt, FS.makedirs, FS.move, FS.removeFile, FS.rmdirTry, FS.hasChild,
    FS.lookupFile, realpathStr, canonSegs, normSegs, splitSlash, splitCharsOn, joinSlash,
    pyJoin, pyDirname, pyStripSlash, basenameStr, countSep, ancestorPaths]

/-- Claim C8, witness at hash `H1`, size 7, content `content`. -/
theorem c8_move_by_hash_witness :
    apply_changes [⟨"a/x.txt", some "H1", some 7⟩] [⟨"b/x.txt", some "H1", some 7⟩] "/root"
        ⟨["/", "/root", "/root/a"], [("/root/a/x.txt", "content")]⟩
      = .ok ⟨["/", "/root", "/root/b"], [("/root/b/x.txt", "content")]⟩
    ∧ FS.lookupFile ⟨["/", "/root", "/root/b"], [("/root/b/x.txt", "content")]⟩
        "/root/b/x.txt" = some "content"
    ∧ FS.existsAt ⟨["/", "/root", "/root/b"], [("/root/b/x.txt", "content")]⟩
        "/root/a/x.txt" = false
    ∧ FS.isdirAt ⟨["/", "/root", "/root/b"], [("/root/b/x.txt", "content")]⟩
        "/root/a" = false :=
  c8_move_by_hash "H1" 7 "content" (by decide)

/-- Claim C9: `compare_structures` is antisymmetric in its two list
arguments — swapping the lists swaps the missing and added results. -/
theorem c9_compare_antisymmetric (a b : List FlatFileItem) (files_only : Bool)
    (missing added : List FlatFileItem)
    (h : compare_structures a b files_only = (missing, added)) :
    compare_structures b a files_only = (added, missing) := by
  have hswap : compare_structures b a files_only
      = ((compare_structures a b files_only).2, (compare_structures a b files_only).1) := rfl
  rw [hswap, h]

/-- Claim C9, witness on a concrete single-item pair. -/
theorem c9_compare_antisymmetric_witness :
    compare_structures [] [⟨"a.txt", some "h1", some 1⟩] false
      = ([], [⟨"a.txt", some "h1", some 1⟩]) :=
  c9_compare_antisymmetric [⟨"a.txt", some "h1", some 1⟩] [] false
    [⟨"a.txt", some "h1", some 1⟩] [] (by decide)

/-- Claim C10: the phase-2 hash maps are built by a dict comprehension, so
a repeated hash keeps the item occurring last in the path-sorted diff list
(first conjunct, in general).  On a diff where two missing and two added
files all share hash `h`, exactly the last-sorted pair `b/f2.txt → d/g2.txt`
is moved; the other missing file `a/f1.txt` is deleted in phase 3 and the
other added file `c/g1.txt` is never created. -/
theorem c10_hash_pairing_tie_break :
    (∀ x y : FlatFileItem, strEndsWith x.path "/" = false →
      strEndsWith y.path "/" = false → hashTruthy x.hash = true → x.hash = y.hash →
      buildHashMap [x, y] = [(hashRepr x.hash, y)])
    ∧ buildHashMap (compare_structures
        [⟨"a/f1.txt", some "h", some 1⟩, ⟨"b/f2.txt", some "h", some 2⟩]
        [⟨"c/g1.txt", some "h", some 1⟩, ⟨"d/g2.txt", some "h", some 2⟩] false).1
      = [("h", ⟨"b/f2.txt", some "h", some 2⟩)]
    ∧ buildHashMap (compare_structures
        [⟨"a/f1.txt", some "h", some 1⟩, ⟨"b/f2.txt", some "h", some 2⟩]
        [⟨"c/g1.txt", some "h", some 1⟩, ⟨"d/g2.txt", some "h", some 2⟩] false).2
      = [("h", ⟨"d/g2.txt", some "h", some 2⟩)]
    ∧ apply_changes
        [⟨"a/f1.txt", some "h", some 1⟩, ⟨"b/f2.txt", some "h", some 2⟩]
        [⟨"c/g1.txt", some "h", some 1⟩, ⟨"d/g2.txt", some "h", some 2⟩] "/root"
        ⟨["/", "/root", "/root/a", "/root/b"],
          [("/root/a/f1.txt", "X"), ("/root/b/f2.txt", "Y")]⟩
      = .ok ⟨["/", "/root", "/root/d"], [("/root/d/g2.txt", "Y")]⟩ := by
  refine ⟨?_, by decide, by decide, by decide⟩
  intro x y hx hy hhx heq
  have hhy : hashTruthy y.hash = true := heq ▸ hhx
  simp [buildHashMap, dictInsert, hasKey, hx, hy, hhx, hhy, heq]

end FileOrganizer
